import Mathlib

/-!
Verification of the key-weaver deterministic key-derivation core.

This file is a shallow embedding of the repository's cryptographic core:

* `src/crypto/keyDerivation.ts` — salt validation/normalization, commitment
  canonicalization, seed construction, HKDF-based scalar derivation, scalar
  clamping and address rendering (`deriveWalletKey`, `canonicalizeCommitments`,
  `normalizeSalt`, `isValidSalt`);
* the API layer (`registerWallet`, `recoverWallet`, `initKeyWeaver`) and the
  process-wide initialization state of `src/api/state.ts`;
* the error classes of the errors module.

The cryptographic primitives (SHA-256, HKDF, Keccak-256, secp256k1 point
multiplication) are external building blocks supplied by `@noble/*` libraries;
they are modelled as fields of a `CryptoEnv` record, so every theorem below
holds for an arbitrary choice of primitives.  JavaScript strings are modelled
as Lean `String`s; `String.prototype.toLowerCase`/`trim` are modelled on the
ASCII range, and `localeCompare` is modelled as code-point lexicographic
comparison, which agrees with the default locale on the lowercase ASCII
provider tags and hex strings this code produces.

The identity-claim extractor, the commitment engine and
`createWalletFromPrivateKey` are imported by the API layer but their source
files are not part of the snapshot; they are modelled from the specification
(sections 4.2, 4.3 and 4.5 step 5) and marked `Modelled from the spec:` below.
-/

/-! ### ASCII character utilities -/

/-- Lowercase a single character, modelling `String.prototype.toLowerCase`
on the ASCII range: `A`–`Z` (code points 65–90) map to `a`–`z`. -/
def lowerChar (c : Char) : Char :=
  if 65 ≤ c.toNat ∧ c.toNat ≤ 90 then Char.ofNat (c.toNat + 32) else c

/-- Model of the regex character class `[0-9a-fA-F]`. -/
def isHexDigitChar (c : Char) : Bool :=
  decide ((48 ≤ c.toNat ∧ c.toNat ≤ 57) ∨ (97 ≤ c.toNat ∧ c.toNat ≤ 102) ∨
    (65 ≤ c.toNat ∧ c.toNat ≤ 70))

/-- Model of the regex character class `[0-9a-f]` (lowercase hex). -/
def isLowerHexChar (c : Char) : Bool :=
  decide ((48 ≤ c.toNat ∧ c.toNat ≤ 57) ∨ (97 ≤ c.toNat ∧ c.toNat ≤ 102))

/-- ASCII whitespace, modelling the characters stripped by
`String.prototype.trim`. -/
def isWsChar (c : Char) : Bool :=
  decide (c.toNat = 32 ∨ c.toNat = 9 ∨ c.toNat = 10 ∨ c.toNat = 13 ∨
    c.toNat = 11 ∨ c.toNat = 12)

/-- Hex digit for a value `0 ≤ d ≤ 15`, as produced by `bytesToHex` and by
`BigInt.prototype.toString(16)` (lowercase). -/
def hexDigitChar : Nat → Char
  | 0 => '0' | 1 => '1' | 2 => '2' | 3 => '3' | 4 => '4'
  | 5 => '5' | 6 => '6' | 7 => '7' | 8 => '8' | 9 => '9'
  | 10 => 'a' | 11 => 'b' | 12 => 'c' | 13 => 'd' | 14 => 'e' | 15 => 'f'
  | _ => '0'

/-- Numeric value of a hex digit character (0 for non-hex characters; only
applied to validated hex strings, mirroring `hexToBytes`). -/
def hexCharVal (c : Char) : Nat :=
  if 48 ≤ c.toNat ∧ c.toNat ≤ 57 then c.toNat - 48
  else if 97 ≤ c.toNat ∧ c.toNat ≤ 102 then c.toNat - 87
  else if 65 ≤ c.toNat ∧ c.toNat ≤ 70 then c.toNat - 55
  else 0

/-- `String.prototype.toLowerCase`, modelled on the ASCII range. -/
def toLowerAscii (s : String) : String := ⟨s.data.map lowerChar⟩

/-- `String.prototype.trim`, modelled for ASCII whitespace. -/
def trimChars (s : String) : String :=
  ⟨((s.data.dropWhile isWsChar).reverse.dropWhile isWsChar).reverse⟩

/-- Code-point lexicographic comparison of character lists; the model of
`String.prototype.localeCompare` returning a negative value.  On the
lowercase ASCII strings compared by this program it coincides with the
default-locale collation the code relies on. -/
def charListLt : List Char → List Char → Bool
  | _, [] => false
  | [], _ :: _ => true
  | a :: as, b :: bs =>
    if a.toNat < b.toNat then true
    else if b.toNat < a.toNat then false
    else charListLt as bs

/-! ### Hex encoding and decoding (`@noble/hashes/utils`) -/

/-- `bytesToHex`: each byte becomes two lowercase hex digits. -/
def bytesToHexList : List Nat → List Char
  | [] => []
  | b :: rest => hexDigitChar (b / 16 % 16) :: hexDigitChar (b % 16) :: bytesToHexList rest

/-- `bytesToHex` as a string. -/
def bytesToHex (bs : List Nat) : String := ⟨bytesToHexList bs⟩

/-- `hexToBytes`: consume the character list two hex digits at a time. -/
def hexToBytesAux : List Char → List Nat
  | c1 :: c2 :: rest => (hexCharVal c1 * 16 + hexCharVal c2) :: hexToBytesAux rest
  | _ => []

/-- `hexToBytes` on a string (only applied to validated even-length hex). -/
def hexToBytes (s : String) : List Nat := hexToBytesAux s.data

/-- Parse a hex digit string as a natural number, big-endian; the model of
`BigInt('0x' + h)`. -/
def hexListToNat (cs : List Char) : Nat :=
  cs.foldl (fun acc c => 16 * acc + hexCharVal c) 0

/-- Minimal-length base-16 rendering, little fuel-indexed helper. -/
def natToHexAux : Nat → Nat → List Char
  | 0, _ => []
  | fuel + 1, n =>
    if n = 0 then [] else natToHexAux fuel (n / 16) ++ [hexDigitChar (n % 16)]

/-- `Nat.toString(16)`-style minimal hex rendering (lowercase), the model of
`BigInt.prototype.toString(16)`. -/
def natToHex (n : Nat) : List Char :=
  if n = 0 then ['0'] else natToHexAux (n + 1) n

/-- `scalar.toString(16).padStart(64, '0')`. -/
def toHex64 (n : Nat) : String :=
  ⟨List.replicate (64 - (natToHex n).length) '0' ++ natToHex n⟩

/-! ### The primitive environment -/

/-- The cryptographic primitives and ambient inputs the core calls out to,
kept abstract: SHA-256 over the UTF-8 bytes of a string, HKDF-SHA256
(ikm, salt bytes, info string, output length), uncompressed secp256k1 public
key from a private-key hex string, Keccak-256 over bytes; plus the
base64url-decode-and-read-subject step of the claim extractor and the output
of `createRandomSalt()`. -/
structure CryptoEnv where
  sha256Utf8 : String → List Nat
  hkdfSha256 : List Nat → List Nat → String → Nat → List Nat
  getPublicKey : String → List Nat
  keccak256 : List Nat → List Nat
  payloadSub : String → Option String
  randomSalt : String

/-! ### `src/crypto/keyDerivation.ts` -/

/-- `isValidHexSalt`: `salt.length === 64 && /^[0-9a-fA-F]{64}$/.test(salt)`. -/
def isValidHexSalt (s : String) : Bool :=
  s.data.length == 64 && s.data.all isHexDigitChar

/-- `isValidSalt` (exported wrapper around `isValidHexSalt`). -/
def isValidSalt (s : String) : Bool := isValidHexSalt s

/-- `TypedCommitment`: provider tag plus commitment hex string. -/
structure TypedCommitment where
  provider : String
  commitment : String
deriving DecidableEq

/-- Provider normalization inside `canonicalizeCommitments`:
`provider.toLowerCase().trim()`, commitment untouched. -/
def normalizeTC (c : TypedCommitment) : TypedCommitment :=
  ⟨trimChars (toLowerAscii c.provider), c.commitment⟩

/-- The sort comparator of `canonicalizeCommitments`: ascending by
`provider.localeCompare`, tie-broken by `commitment.localeCompare`.
`tcLeB a b` means the comparator orders `a` no later than `b`. -/
def tcLeB (a b : TypedCommitment) : Bool :=
  if charListLt a.provider.data b.provider.data then true
  else if charListLt b.provider.data a.provider.data then false
  else !(charListLt b.commitment.data a.commitment.data)

/-- The comparator as a binary relation, for `List.insertionSort`. -/
def tcLe (a b : TypedCommitment) : Prop := tcLeB a b = true

instance : DecidableRel tcLe := fun a b => by unfold tcLe; infer_instance

/-- Join the serialized records with the `|` field separator
(`sorted.map(...).join('|')`). -/
def joinRecords : List String → String
  | [] => ""
  | [s] => s
  | s :: rest => s ++ "|" ++ joinRecords rest

/-- `canonicalizeCommitments`: normalize providers to lowercase+trimmed, sort
by `(provider, commitment)`, serialize as `provider:commitmentHex` records
joined by `|`. -/
def canonicalizeCommitments (commitments : List TypedCommitment) : String :=
  joinRecords
    (((commitments.map normalizeTC).insertionSort tcLe).map
      (fun c => c.provider ++ ":" ++ c.commitment))

/-- The secp256k1 group order used for scalar clamping. -/
def CURVE_ORDER : Nat :=
  0xFFFFFFFFFFFFFFFFFFFFFFFFFFFFFFFEBAAEDCE6AF48A03BBFD25E8CD0364141

/-- Scalar clamping: if the scalar is zero or not below the curve order,
reduce it modulo the order, and fall back to 1 if the reduction is zero. -/
def clampScalar (s : Nat) : Nat :=
  if s = 0 ∨ CURVE_ORDER ≤ s then
    (if s % CURVE_ORDER = 0 then 1 else s % CURVE_ORDER)
  else s

/-- `BigInt('0x' + bytesToHex(keyMaterial))`: interpret the key material
bytes as a big-endian integer via their hex rendering. -/
def rawScalar (km : List Nat) : Nat := hexListToNat (bytesToHexList km)

/-- `Array.prototype.slice(-n)`: the last `n` elements (all of them when the
list is shorter than `n`). -/
def lastN (n : Nat) (l : List Nat) : List Nat := l.drop (l.length - n)

/-- Address derivation from a private-key hex string: uncompressed public
key, drop the format byte, Keccak-256, low 20 bytes, `0x`-prefixed hex. -/
def addressFromPrivateKey (env : CryptoEnv) (privateKey : String) : String :=
  "0x" ++ bytesToHex (lastN 20 (env.keccak256 ((env.getPublicKey privateKey).drop 1)))

/-- The error taxonomy of the errors module, plus the error payloads the API
layer throws (`Error` subclasses in the source). -/
inductive Err where
  | invalidIdentityToken (provider : String) (reason : String)
  | insufficientIdentities (provided : Nat) (required : Nat)
  | insufficientCommitments (needed : Nat) (got : Nat)
  | invalidSalt (gotLen : Nat)
  | keyDerivation (reason : String)
  | notInitialized
deriving DecidableEq

/-- `KeyDerivationParams`. -/
structure KeyDerivationParams where
  commitments : List TypedCommitment
  threshold : Nat
  salt : String

/-- `DerivedKeyResult`. -/
structure DerivedKeyResult where
  privateKey : String
  address : String
deriving DecidableEq

/-- `deriveWalletKey`: threshold precondition, salt validation, canonical
form, versioned seed, HKDF expansion, scalar clamping, address derivation.
Thrown `Error`s become `Except.error`. -/
def deriveWalletKey (env : CryptoEnv) (p : KeyDerivationParams) :
    Except Err DerivedKeyResult :=
  if p.commitments.length < p.threshold then
    .error (.insufficientCommitments p.threshold p.commitments.length)
  else if isValidHexSalt p.salt = false then
    .error (.invalidSalt p.salt.length)
  else
    let canonical := canonicalizeCommitments p.commitments
    let saltBytes := hexToBytes p.salt
    let seedInput := "key-weaver:v1" ++ "|" ++ canonical ++ "|" ++ p.salt
    let seed := env.sha256Utf8 seedInput
    let km := env.hkdfSha256 seed saltBytes "key-weaver-hkdf" 32
    let scalar := clampScalar (rawScalar km)
    let privateKey := toHex64 scalar
    .ok ⟨privateKey, addressFromPrivateKey env privateKey⟩

/-- `normalizeSalt`: already-valid hex is lowercased and returned unchanged;
any other string is hashed with SHA-256 and hex-encoded. -/
def normalizeSalt (env : CryptoEnv) (input : String) : String :=
  if isValidHexSalt input then toLowerAscii input
  else bytesToHex (env.sha256Utf8 input)

/-! ### Identity claims and commitments

The claim extractor (`src/identity`) and commitment engine
(`src/commitments`) are imported by the API layer but their sources are not
in the snapshot; they are modelled from the specification. -/

/-- `IdentityClaim`: uniform `{provider, stableId}` claim. -/
structure IdentityClaim where
  provider : String
  stableId : String
deriving DecidableEq

/-- `Commitment` as stored by the caller: the bookkeeping claim tag plus the
commitment hex (`c.claim.provider` and `c.commitment` are the fields the API
layer reads). -/
structure Commitment where
  claim : IdentityClaim
  commitment : String
deriving DecidableEq

/-- `SupportedIdentity`: tagged union over provider kinds.  The `google`
variant carries an OAuth ID token, `github`/`twitter` carry opaque access
tokens, and `passkey` carries a WebAuthn assertion whose credential id may be
absent (the structurally malformed case). -/
inductive SupportedIdentity where
  | google (idToken : String)
  | github (accessToken : String)
  | twitter (accessToken : String)
  | passkey (credentialId : Option String)
deriving DecidableEq

/-- Split a character list at `.` separators, the model of
`token.split('.')`. -/
def splitOnDot : List Char → List (List Char)
  | [] => [[]]
  | c :: rest =>
    match splitOnDot rest with
    | [] => [[c]]
    | g :: gs => if c = '.' then [] :: g :: gs else (c :: g) :: gs

/-- Modelled from the spec: `extractClaim` (§4.2, source `src/identity` not
in the snapshot).  An OAuth ID token must have exactly three `.`-separated
parts; its middle part is base64url-decoded and the subject field read (the
composite step `CryptoEnv.payloadSub`, `none` meaning undecodable payload or
missing subject).  Opaque access tokens hash the raw token as `stableId`.  A
passkey assertion uses its credential id, failing when it is missing.
Structural malformation raises `InvalidIdentityTokenError{provider, reason}`. -/
def extractIdentityClaim (env : CryptoEnv) : SupportedIdentity → Except Err IdentityClaim
  | .google idToken =>
    let parts := splitOnDot idToken.data
    if parts.length ≠ 3 then .error (.invalidIdentityToken "google" "wrong part count")
    else
      match env.payloadSub ⟨parts.getD 1 []⟩ with
      | none => .error (.invalidIdentityToken "google" "undecodable payload or missing subject")
      | some sub => .ok ⟨"google", sub⟩
  | .github accessToken => .ok ⟨"github", bytesToHex (env.sha256Utf8 accessToken)⟩
  | .twitter accessToken => .ok ⟨"twitter", bytesToHex (env.sha256Utf8 accessToken)⟩
  | .passkey none => .error (.invalidIdentityToken "passkey" "missing credential id")
  | .passkey (some credentialId) => .ok ⟨"passkey", credentialId⟩

/-- `identities.map(extractIdentityClaim)` with exception propagation: the
first failing extraction aborts the whole map. -/
def extractClaims (env : CryptoEnv) : List SupportedIdentity → Except Err (List IdentityClaim)
  | [] => .ok []
  | i :: rest =>
    match extractIdentityClaim env i with
    | .error e => .error e
    | .ok c =>
      match extractClaims env rest with
      | .error e => .error e
      | .ok cs => .ok (c :: cs)

/-- Modelled from the spec: `compute` of the Commitment Engine (§4.3, source
`src/commitments` not in the snapshot): hash of normalized provider tag,
`stableId` and salt with explicit field separators, hex-encoded. -/
def computeCommitment (env : CryptoEnv) (claim : IdentityClaim) (salt : String) : String :=
  bytesToHex (env.sha256Utf8
    (trimChars (toLowerAscii claim.provider) ++ "|" ++ claim.stableId ++ "|" ++ salt))

/-- Modelled from the spec: `validate` of the Commitment Engine (§4.3):
recompute and compare against the stored commitment hex. -/
def validateCommitment (env : CryptoEnv) (claim : IdentityClaim) (salt : String)
    (commitmentHex : String) : Bool :=
  decide (computeCommitment env claim salt = commitmentHex)

/-- Modelled from the spec: `generateCommitments` — one commitment per
claim, retaining the claim tag for bookkeeping. -/
def generateCommitments (env : CryptoEnv) (claims : List IdentityClaim) (salt : String) :
    List Commitment :=
  claims.map (fun cl => ⟨cl, computeCommitment env cl salt⟩)

/-- The wallet object returned by the API (only its address is observable to
this core). -/
structure Wallet where
  address : String
deriving DecidableEq

/-- Modelled from the spec: `createWalletFromPrivateKey` (§4.6 recomputes
the address from the derived private key by the §4.5 step-5 formula). -/
def createWalletFromPrivateKey (env : CryptoEnv) (privateKey : String) : Wallet :=
  ⟨addressFromPrivateKey env privateKey⟩

/-! ### `src/api/state.ts` and the API layer -/

/-- `KeyWeaverConfig` (the `version` field is reserved and unused). -/
structure KeyWeaverConfig where
  version : Option String := none
deriving DecidableEq

/-- The module-level mutable state of `src/api/state.ts`; `inited` models the
`initialized` flag. -/
structure KeyWeaverState where
  inited : Bool
  config : Option KeyWeaverConfig
deriving DecidableEq

/-- `initKeyWeaver` / `initializeKeyWeaver`: store the config and set the
flag. -/
def initKeyWeaver (config : KeyWeaverConfig) (_st : KeyWeaverState) : KeyWeaverState :=
  ⟨true, some config⟩

/-- The `.message` string of each error (`Error` constructor bodies in the
errors module). -/
def errMessage : Err → String
  | .invalidIdentityToken p r => "Invalid " ++ p ++ " token: " ++ r
  | .insufficientIdentities p r =>
    "Insufficient identities: provided " ++ toString p ++ ", required " ++ toString r
  | .insufficientCommitments n g =>
    "Insufficient commitments: need at least " ++ toString n ++ ", have " ++ toString g
  | .invalidSalt g =>
    "Invalid salt format: expected 64-char hex string, got " ++ toString g ++ " chars"
  | .keyDerivation r => "Key derivation failed: " ++ r
  | .notInitialized => "Key Weaver system not initialized. Call initKeyWeaver() first."

/-- The `catch` block of `registerWallet`/`recoverWallet`: any error thrown
inside the `try` block is rethrown as `KeyDerivationError(error.message)`. -/
def wrapErr {α : Type} : Except Err α → Except Err α
  | .error e => .error (.keyDerivation (errMessage e))
  | .ok a => .ok a

/-- The `TypedCommitment` conversion both API functions apply to stored
commitments: `{provider: c.claim.provider.toLowerCase().trim(), commitment:
c.commitment}`. -/
def typedOf (commitments : List Commitment) : List TypedCommitment :=
  commitments.map (fun c => ⟨trimChars (toLowerAscii c.claim.provider), c.commitment⟩)

/-- `RegisterWalletParams` (`salt?: string`). -/
structure RegisterWalletParams where
  identities : List SupportedIdentity
  threshold : Nat
  salt : Option String := none
  exposePrivateKey : Bool := false

/-- `RegisterWalletResult` (`privateKey` present only when exposed). -/
structure RegisterWalletResult where
  commitments : List Commitment
  salt : String
  address : String
  privateKey : Option String
deriving DecidableEq

/-- `RecoverWalletParams`. -/
structure RecoverWalletParams where
  identities : List SupportedIdentity
  commitments : List Commitment
  salt : String
  threshold : Nat
  exposePrivateKey : Bool := false

/-- `RecoverWalletResult`; the failure branch returns an empty wallet object
(`{} as Wallet`), modelled as `none`. -/
structure RecoverWalletResult where
  wallet : Option Wallet
  matchedCount : Nat
  success : Bool
  privateKey : Option String
deriving DecidableEq

/-- The matching loop of `recoverWallet` step 2: for each presented claim,
`commitments.find(stored => validateCommitment(claim, salt, stored.commitment))`
and count the claims with a match.  Matched entries are not consumed. -/
def matchCount (env : CryptoEnv) (stored : List Commitment) (salt : String) :
    List IdentityClaim → Nat
  | [] => 0
  | cl :: rest =>
    (if (stored.find? (fun s => validateCommitment env cl salt s.commitment)).isSome
     then 1 else 0) + matchCount env stored salt rest

/-- `providedSalt || createRandomSalt()`: use the provided salt unless it is
absent or falsy (the empty string). -/
def chooseSalt (env : CryptoEnv) : Option String → String
  | some s => if s = "" then env.randomSalt else s
  | none => env.randomSalt

/-- The `try` block of `registerWallet`: extract claims, normalize (or
generate) the salt, generate commitments, derive the key from all of them. -/
def registerBody (env : CryptoEnv) (p : RegisterWalletParams) :
    Except Err RegisterWalletResult :=
  match extractClaims env p.identities with
  | .error e => .error e
  | .ok claims =>
    let salt := normalizeSalt env (chooseSalt env p.salt)
    let commitments := generateCommitments env claims salt
    match deriveWalletKey env ⟨typedOf commitments, p.threshold, salt⟩ with
    | .error e => .error e
    | .ok dk =>
      .ok ⟨commitments, salt, dk.address,
        if p.exposePrivateKey then some dk.privateKey else none⟩

/-- `registerWallet`: initialization check, threshold precondition (outside
the `try` block), then the wrapped body. -/
def registerWallet (env : CryptoEnv) (st : KeyWeaverState) (p : RegisterWalletParams) :
    Except Err RegisterWalletResult :=
  if st.inited = false ∨ st.config = none then .error .notInitialized
  else if p.identities.length < p.threshold then
    .error (.insufficientIdentities p.identities.length p.threshold)
  else wrapErr (registerBody env p)

/-- The `try` block of `recoverWallet`: extract claims, match them against
the stored commitments, gate on the threshold, then re-derive from the
entire stored commitment set and check the recomputed address. -/
def recoverBody (env : CryptoEnv) (p : RecoverWalletParams) (salt : String) :
    Except Err RecoverWalletResult :=
  match extractClaims env p.identities with
  | .error e => .error e
  | .ok claims =>
    let mc := matchCount env p.commitments salt claims
    if mc < p.threshold then .ok ⟨none, mc, false, none⟩
    else
      match deriveWalletKey env ⟨typedOf p.commitments, p.threshold, salt⟩ with
      | .error e => .error e
      | .ok dk =>
        let w := createWalletFromPrivateKey env dk.privateKey
        if toLowerAscii w.address ≠ toLowerAscii dk.address then
          .error (.keyDerivation "Address mismatch during recovery")
        else .ok ⟨some w, mc, true,
          if p.exposePrivateKey then some dk.privateKey else none⟩

/-- `recoverWallet`: initialization check, salt normalization, then the
wrapped body. -/
def recoverWallet (env : CryptoEnv) (st : KeyWeaverState) (p : RecoverWalletParams) :
    Except Err RecoverWalletResult :=
  if st.inited = false ∨ st.config = none then .error .notInitialized
  else wrapErr (recoverBody env p (normalizeSalt env p.salt))

deriving instance DecidableEq for Except

/-! ### Spec-side predicate and concrete fixtures -/

/-- The spec's canonical salt pattern `^[0-9a-f]{64}$` (lowercase only;
`isValidSalt` in the source also accepts uppercase). -/
def isLowerHex64 (s : String) : Bool :=
  s.data.length == 64 && s.data.all isLowerHexChar

/-- A 64-character lowercase hex salt used by the closed evaluations. -/
def saltA : String :=
  "aaaaaaaaaaaaaaaaaaaaaaaaaaaaaaaaaaaaaaaaaaaaaaaaaaaaaaaaaaaaaaaa"

/-- A concrete primitive environment for evaluating the model on closed
inputs; the theorems themselves quantify over arbitrary environments. -/
def envD : CryptoEnv :=
  ⟨fun _ => List.replicate 32 0, fun _ _ _ _ => List.replicate 32 0,
   fun _ => List.replicate 65 4, fun _ => List.replicate 32 5,
   fun _ => some "subject", saltA⟩

/-- The process state before any `initKeyWeaver` call. -/
def stFresh : KeyWeaverState := ⟨false, none⟩

/-- The process state after `initKeyWeaver({})`. -/
def stReady : KeyWeaverState := initKeyWeaver ⟨none⟩ stFresh

/-- The claim extracted from the opaque access token `"tok"` under `envD`. -/
def claimTok : IdentityClaim := ⟨"github", bytesToHex (envD.sha256Utf8 "tok")⟩

/-- One stored commitment, genuinely registered for `claimTok` and `saltA`. -/
def storedC2 : List Commitment := generateCommitments envD [claimTok] saltA

/-- Recovery request presenting the same valid proof twice against the single
stored commitment, with threshold 3. -/
def recParamsC2 : RecoverWalletParams :=
  ⟨[.github "tok", .github "tok"], storedC2, saltA, 3, false⟩

/-- Registration request with a structurally malformed OAuth ID token (one
part instead of three). -/
def regParamsC7 : RegisterWalletParams := ⟨[.google "abc"], 1, some saltA, false⟩

/-- A well-formed registration request used by the closed evaluations. -/
def regParamsW : RegisterWalletParams := ⟨[.github "tok"], 1, some saltA, true⟩

/-- The registration result produced by `regParamsW` under `envD`. -/
def regResultW : RegisterWalletResult :=
  ⟨generateCommitments envD [claimTok] saltA, saltA,
   addressFromPrivateKey envD (toHex64 1), some (toHex64 1)⟩

/-! ### Order properties of the sort comparator -/

theorem char_eq_of_toNat_eq {a b : Char} (h : a.toNat = b.toNat) : a = b := by
  apply Char.ext
  apply UInt32.ext
  simpa [Char.toNat, UInt32.toNat] using h

theorem str_data_inj {s t : String} (h : s.data = t.data) : s = t := by
  cases s; cases t
  exact congrArg String.mk h

theorem charListLt_irrefl (l : List Char) : charListLt l l = false := by
  induction l with
  | nil => rfl
  | cons a as ih => simp [charListLt, ih]

theorem charListLt_asymm : ∀ {a b : List Char},
    charListLt a b = true → charListLt b a = false
  | [], [], h => by simp [charListLt] at h
  | [], _ :: _, _ => rfl
  | _ :: _, [], h => by simp [charListLt] at h
  | x :: xs, y :: ys, h => by
    simp only [charListLt] at h ⊢
    by_cases h1 : x.toNat < y.toNat
    · rw [if_neg (by omega), if_pos h1]
    · by_cases h2 : y.toNat < x.toNat
      · rw [if_neg h1, if_pos h2] at h
        exact absurd h (by simp)
      · rw [if_neg h1, if_neg h2] at h
        rw [if_neg h2, if_neg h1]
        exact charListLt_asymm h

theorem charListLt_trans : ∀ {a b c : List Char},
    charListLt a b = true → charListLt b c = true → charListLt a c = true
  | _, [], _, h1, _ => by simp [charListLt] at h1
  | a, b :: bs, [], _, h2 => by simp [charListLt] at h2
  | [], _ :: _, _ :: _, _, _ => rfl
  | x :: xs, y :: ys, z :: zs, h1, h2 => by
    simp only [charListLt] at h1 h2 ⊢
    by_cases hxy : x.toNat < y.toNat
    · by_cases hyz : y.toNat < z.toNat
      · rw [if_pos (by omega)]
      · rw [if_neg hyz] at h2
        by_cases hzy : z.toNat < y.toNat
        · rw [if_pos hzy] at h2
          exact absurd h2 (by simp)
        · rw [if_pos (by omega)]
    · rw [if_neg hxy] at h1
      by_cases hyx : y.toNat < x.toNat
      · rw [if_pos hyx] at h1
        exact absurd h1 (by simp)
      · rw [if_neg hyx] at h1
        by_cases hyz : y.toNat < z.toNat
        · rw [if_pos (by omega)]
        · rw [if_neg hyz] at h2
          by_cases hzy : z.toNat < y.toNat
          · rw [if_pos hzy] at h2
            exact absurd h2 (by simp)
          · rw [if_neg hzy] at h2
            rw [if_neg (by omega), if_neg (by omega)]
            exact charListLt_trans h1 h2

theorem charListLt_negtrans : ∀ {a b c : List Char},
    charListLt a b = false → charListLt b c = false → charListLt a c = false
  | _, _, [], _, _ => by simp [charListLt]
  | _, [], _ :: _, _, h2 => by simp [charListLt] at h2
  | [], _ :: _, _ :: _, h1, _ => by simp [charListLt] at h1
  | x :: xs, y :: ys, z :: zs, h1, h2 => by
    simp only [charListLt] at h1 h2 ⊢
    by_cases hxy : x.toNat < y.toNat
    · rw [if_pos hxy] at h1
      exact absurd h1 (by simp)
    · rw [if_neg hxy] at h1
      by_cases hyz : y.toNat < z.toNat
      · rw [if_pos hyz] at h2
        exact absurd h2 (by simp)
      · rw [if_neg hyz] at h2
        by_cases hyx : y.toNat < x.toNat
        · by_cases hzy : z.toNat < y.toNat
          · rw [if_neg (by omega), if_pos (by omega)]
          · rw [if_neg (by omega), if_pos (by omega)]
        · rw [if_neg hyx] at h1
          by_cases hzy : z.toNat < y.toNat
          · rw [if_neg (by omega), if_pos (by omega)]
          · rw [if_neg hzy] at h2
            rw [if_neg (by omega), if_neg (by omega)]
            exact charListLt_negtrans h1 h2

theorem charListLt_eq : ∀ {a b : List Char},
    charListLt a b = false → charListLt b a = false → a = b
  | [], [], _, _ => rfl
  | [], _ :: _, h1, _ => by simp [charListLt] at h1
  | _ :: _, [], _, h2 => by simp [charListLt] at h2
  | x :: xs, y :: ys, h1, h2 => by
    simp only [charListLt] at h1 h2
    by_cases hxy : x.toNat < y.toNat
    · rw [if_pos hxy] at h1
      exact absurd h1 (by simp)
    · by_cases hyx : y.toNat < x.toNat
      · rw [if_pos hyx] at h2
        exact absurd h2 (by simp)
      · rw [if_neg hxy, if_neg hyx] at h1
        rw [if_neg hyx, if_neg hxy] at h2
        have hx : x = y := char_eq_of_toNat_eq (by omega)
        have ht : xs = ys := charListLt_eq h1 h2
        rw [hx, ht]

theorem tcLe_total (a b : TypedCommitment) : tcLe a b ∨ tcLe b a := by
  unfold tcLe tcLeB
  by_cases hab : charListLt a.provider.data b.provider.data = true
  · left; rw [if_pos hab]
  · by_cases hba : charListLt b.provider.data a.provider.data = true
    · right; rw [if_pos hba]
    · replace hab := Bool.not_eq_true _ ▸ hab
      replace hba := Bool.not_eq_true _ ▸ hba
      by_cases hc : charListLt b.commitment.data a.commitment.data = true
      · right
        rw [if_neg (by simp [hba]), if_neg (by simp [hab])]
        simp [charListLt_asymm hc]
      · left
        rw [if_neg (by simp [hab]), if_neg (by simp [hba])]
        simp [Bool.not_eq_true _ ▸ hc]

instance : IsTotal TypedCommitment tcLe := ⟨tcLe_total⟩

theorem tcLe_iff {a b : TypedCommitment} : tcLe a b ↔
    charListLt a.provider.data b.provider.data = true ∨
    (charListLt a.provider.data b.provider.data = false ∧
     charListLt b.provider.data a.provider.data = false ∧
     charListLt b.commitment.data a.commitment.data = false) := by
  unfold tcLe tcLeB
  by_cases hab : charListLt a.provider.data b.provider.data = true
  · simp [hab]
  · replace hab := Bool.not_eq_true _ ▸ hab
    by_cases hba : charListLt b.provider.data a.provider.data = true
    · simp [hab, hba]
    · replace hba := Bool.not_eq_true _ ▸ hba
      simp [hab, hba]

theorem tcLe_trans_thm (a b c : TypedCommitment) (h1 : tcLe a b) (h2 : tcLe b c) :
    tcLe a c := by
  rw [tcLe_iff] at h1 h2 ⊢
  rcases h1 with h1 | ⟨h1f, h1r, h1c⟩
  · rcases h2 with h2 | ⟨h2f, h2r, h2c⟩
    · exact Or.inl (charListLt_trans h1 h2)
    · have hbc : b.provider.data = c.provider.data := charListLt_eq h2f h2r
      exact Or.inl (hbc ▸ h1)
  · have hab : a.provider.data = b.provider.data := charListLt_eq h1f h1r
    rcases h2 with h2 | ⟨h2f, h2r, h2c⟩
    · exact Or.inl (hab ▸ h2)
    · have hbc : b.provider.data = c.provider.data := charListLt_eq h2f h2r
      refine Or.inr ⟨by rw [hab]; exact h2f, by rw [hab]; exact h2r, ?_⟩
      exact charListLt_negtrans h2c h1c

instance : IsTrans TypedCommitment tcLe := ⟨tcLe_trans_thm⟩

theorem tcLe_antisymm_thm (a b : TypedCommitment) (h1 : tcLe a b) (h2 : tcLe b a) :
    a = b := by
  rw [tcLe_iff] at h1 h2
  rcases h1 with h1 | ⟨h1f, h1r, h1c⟩
  · rcases h2 with h2 | ⟨h2f, h2r, h2c⟩
    · exact absurd (charListLt_asymm h1) (by simp [h2])
    · exact absurd h1 (by simp [h2r])
  · rcases h2 with h2 | ⟨h2f, h2r, h2c⟩
    · exact absurd h2 (by simp [h1r])
    · have hp : a.provider = b.provider := str_data_inj (charListLt_eq h1f h1r)
      have hc : a.commitment = b.commitment := str_data_inj (charListLt_eq h2c h1c)
      obtain ⟨ap, ac⟩ := a
      obtain ⟨bp, bc⟩ := b
      simp only at hp hc
      rw [hp, hc]

instance : IsAntisymm TypedCommitment tcLe := ⟨tcLe_antisymm_thm⟩

/-- Permutation invariance of the canonicalizer, shared by the claims about
`canonicalizeCommitments` and `deriveWalletKey`. -/
theorem canon_perm {cs cs' : List TypedCommitment} (h : cs.Perm cs') :
    canonicalizeCommitments cs = canonicalizeCommitments cs' := by
  unfold canonicalizeCommitments
  congr 2
  exact List.eq_of_perm_of_sorted
    (((List.perm_insertionSort tcLe _).trans (h.map normalizeTC)).trans
      (List.perm_insertionSort tcLe _).symm)
    (List.sorted_insertionSort tcLe _) (List.sorted_insertionSort tcLe _)

/-! ### Character and hex-rendering lemmas -/

theorem char_toNat_ofNat (n : Nat) (h : n < 55296) : (Char.ofNat n).toNat = n := by
  have hv : n.isValidChar := Or.inl h
  rw [Char.ofNat, dif_pos hv]
  rfl

theorem lowerChar_toNat (c : Char) (h : 65 ≤ c.toNat ∧ c.toNat ≤ 90) :
    (lowerChar c).toNat = c.toNat + 32 := by
  unfold lowerChar
  rw [if_pos h]
  exact char_toNat_ofNat _ (by omega)

theorem lowerChar_fix (c : Char) (h : ¬(65 ≤ c.toNat ∧ c.toNat ≤ 90)) :
    lowerChar c = c := by
  unfold lowerChar
  exact if_neg h

theorem lowerChar_idem (c : Char) : lowerChar (lowerChar c) = lowerChar c := by
  by_cases h : 65 ≤ c.toNat ∧ c.toNat ≤ 90
  · exact lowerChar_fix _ (by rw [lowerChar_toNat c h]; omega)
  · rw [lowerChar_fix c h, lowerChar_fix c h]

theorem lowerChar_of_lowerHex {c : Char} (h : isLowerHexChar c = true) :
    lowerChar c = c := by
  simp only [isLowerHexChar, decide_eq_true_eq] at h
  exact lowerChar_fix c (by omega)

theorem isLowerHexChar_isHex {c : Char} (h : isLowerHexChar c = true) :
    isHexDigitChar c = true := by
  simp only [isLowerHexChar, decide_eq_true_eq] at h
  simp only [isHexDigitChar, decide_eq_true_eq]
  omega

theorem lowerChar_hex {c : Char} (h : isHexDigitChar c = true) :
    isLowerHexChar (lowerChar c) = true := by
  simp only [isHexDigitChar, decide_eq_true_eq] at h
  rcases h with h | h | h
  · rw [lowerChar_fix c (by omega)]
    simp only [isLowerHexChar, decide_eq_true_eq]
    omega
  · rw [lowerChar_fix c (by omega)]
    simp only [isLowerHexChar, decide_eq_true_eq]
    omega
  · simp only [isLowerHexChar, decide_eq_true_eq]
    rw [lowerChar_toNat c (by omega)]
    omega

theorem hexDigitChar_lowerHex (d : Nat) (h : d < 16) :
    isLowerHexChar (hexDigitChar d) = true := by
  interval_cases d <;> decide

theorem bytesToHexList_length (bs : List Nat) :
    (bytesToHexList bs).length = 2 * bs.length := by
  induction bs with
  | nil => rfl
  | cons b rest ih => simp [bytesToHexList, ih]; omega

theorem bytesToHexList_lowerHex (bs : List Nat) :
    ∀ c ∈ bytesToHexList bs, isLowerHexChar c = true := by
  induction bs with
  | nil => intro c hc; simp [bytesToHexList] at hc
  | cons b rest ih =>
    intro c hc
    simp only [bytesToHexList, List.mem_cons] at hc
    rcases hc with rfl | rfl | hc
    · exact hexDigitChar_lowerHex _ (Nat.mod_lt _ (by omega))
    · exact hexDigitChar_lowerHex _ (Nat.mod_lt _ (by omega))
    · exact ih c hc

theorem map_lowerChar_fix (l : List Char) (h : ∀ c ∈ l, isLowerHexChar c = true) :
    l.map lowerChar = l := by
  induction l with
  | nil => rfl
  | cons c rest ih =>
    simp only [List.map_cons]
    rw [lowerChar_of_lowerHex (h c (by simp)), ih (fun x hx => h x (by simp [hx]))]

theorem toLowerAscii_data (s : String) : (toLowerAscii s).data = s.data.map lowerChar := rfl

theorem toLowerAscii_idem (s : String) : toLowerAscii (toLowerAscii s) = toLowerAscii s := by
  apply str_data_inj
  show (s.data.map lowerChar).map lowerChar = s.data.map lowerChar
  rw [List.map_map]
  exact List.map_congr_left (fun c _ => lowerChar_idem c)

theorem toLowerAscii_normalizeSalt (env : CryptoEnv) (y : String) :
    toLowerAscii (normalizeSalt env y) = normalizeSalt env y := by
  unfold normalizeSalt
  split
  · exact toLowerAscii_idem y
  · apply str_data_inj
    rw [toLowerAscii_data]
    exact map_lowerChar_fix _ (bytesToHexList_lowerHex _)

/-! ### Value bounds for the scalar pipeline -/

theorem hexCharVal_lt (c : Char) : hexCharVal c < 16 := by
  unfold hexCharVal
  split_ifs <;> omega

theorem hexListToNat_aux_lt : ∀ (cs : List Char) (acc : Nat),
    List.foldl (fun acc c => 16 * acc + hexCharVal c) acc cs < (acc + 1) * 16 ^ cs.length
  | [], acc => by simp
  | c :: cs, acc => by
    have h1 := hexListToNat_aux_lt cs (16 * acc + hexCharVal c)
    have h2 : hexCharVal c < 16 := hexCharVal_lt c
    simp only [List.foldl_cons, List.length_cons]
    calc List.foldl (fun acc c => 16 * acc + hexCharVal c) (16 * acc + hexCharVal c) cs
        < (16 * acc + hexCharVal c + 1) * 16 ^ cs.length := h1
      _ ≤ ((acc + 1) * 16) * 16 ^ cs.length :=
          Nat.mul_le_mul_right _ (by omega)
      _ = (acc + 1) * 16 ^ (cs.length + 1) := by ring

theorem hexListToNat_lt (cs : List Char) : hexListToNat cs < 16 ^ cs.length := by
  simpa [hexListToNat] using hexListToNat_aux_lt cs 0

theorem rawScalar_lt (km : List Nat) (h : km.length = 32) : rawScalar km < 16 ^ 64 := by
  have hb := hexListToNat_lt (bytesToHexList km)
  rw [bytesToHexList_length, h] at hb
  simpa [rawScalar] using hb

theorem curveOrder_pos : 0 < CURVE_ORDER := by norm_num [CURVE_ORDER]

theorem one_lt_curveOrder : 1 < CURVE_ORDER := by norm_num [CURVE_ORDER]

theorem curveOrder_lt_pow : CURVE_ORDER < 16 ^ 64 := by norm_num [CURVE_ORDER]

theorem clampScalar_range (s : Nat) :
    1 ≤ clampScalar s ∧ clampScalar s < CURVE_ORDER := by
  unfold clampScalar
  split_ifs with h1 h2
  · exact ⟨Nat.le_refl 1, one_lt_curveOrder⟩
  · have hm : s % CURVE_ORDER < CURVE_ORDER := Nat.mod_lt _ curveOrder_pos
    omega
  · push_neg at h1
    omega

/-! ### Length and charset of the rendered private key -/

theorem natToHexAux_length_le : ∀ (fuel n k : Nat), n < 16 ^ k →
    (natToHexAux fuel n).length ≤ k
  | 0, _, _, _ => by simp [natToHexAux]
  | fuel + 1, n, k, h => by
    by_cases hn : n = 0
    · simp [natToHexAux, hn]
    · have hk : k ≠ 0 := by
        intro hk0
        rw [hk0, pow_zero] at h
        omega
      obtain ⟨k', rfl⟩ : ∃ k', k = k' + 1 := ⟨k - 1, by omega⟩
      have hdiv : n / 16 < 16 ^ k' := by
        rw [Nat.div_lt_iff_lt_mul (by norm_num)]
        calc n < 16 ^ (k' + 1) := h
          _ = 16 ^ k' * 16 := by ring
      have ih := natToHexAux_length_le fuel (n / 16) k' hdiv
      simp only [natToHexAux, if_neg hn, List.length_append, List.length_singleton]
      omega

theorem natToHex_length_le (n : Nat) (h : n < 16 ^ 64) : (natToHex n).length ≤ 64 := by
  unfold natToHex
  split
  · simp
  · exact natToHexAux_length_le _ _ _ h

theorem toHex64_length (n : Nat) (h : n < 16 ^ 64) : (toHex64 n).length = 64 := by
  have hle := natToHex_length_le n h
  show (List.replicate (64 - (natToHex n).length) '0' ++ natToHex n).length = 64
  rw [List.length_append, List.length_replicate]
  omega

theorem natToHexAux_lowerHex : ∀ (fuel n : Nat), ∀ c ∈ natToHexAux fuel n,
    isLowerHexChar c = true
  | 0, _, c, hc => by simp [natToHexAux] at hc
  | fuel + 1, n, c, hc => by
    by_cases hn : n = 0
    · simp [natToHexAux, hn] at hc
    · simp only [natToHexAux, if_neg hn, List.mem_append, List.mem_singleton] at hc
      rcases hc with hc | rfl
      · exact natToHexAux_lowerHex fuel (n / 16) c hc
      · exact hexDigitChar_lowerHex _ (Nat.mod_lt _ (by omega))

theorem toHex64_lowerHex (n : Nat) : ∀ c ∈ (toHex64 n).data, isLowerHexChar c = true := by
  intro c hc
  show isLowerHexChar c = true
  have : c ∈ List.replicate (64 - (natToHex n).length) '0' ++ natToHex n := hc
  rw [List.mem_append] at this
  rcases this with h | h
  · rw [List.eq_of_mem_replicate h]
    decide
  · unfold natToHex at h
    split at h
    · rw [List.mem_singleton] at h
      rw [h]
      decide
    · exact natToHexAux_lowerHex _ _ c h

/-! ### Salt normalization lemmas -/

theorem isValidHexSalt_iff {s : String} : isValidHexSalt s = true ↔
    s.data.length = 64 ∧ ∀ c ∈ s.data, isHexDigitChar c = true := by
  simp [isValidHexSalt, List.all_eq_true]

theorem toLowerAscii_valid {s : String} (h : isValidHexSalt s = true) :
    isValidHexSalt (toLowerAscii s) = true := by
  rw [isValidHexSalt_iff] at h ⊢
  obtain ⟨hl, hall⟩ := h
  constructor
  · rw [toLowerAscii_data, List.length_map]
    exact hl
  · intro c hc
    rw [toLowerAscii_data, List.mem_map] at hc
    obtain ⟨c0, hc0, rfl⟩ := hc
    exact isLowerHexChar_isHex (lowerChar_hex (hall c0 hc0))

theorem bytesToHex_valid {bs : List Nat} (h : bs.length = 32) :
    isValidHexSalt (bytesToHex bs) = true := by
  rw [isValidHexSalt_iff]
  constructor
  · show (bytesToHexList bs).length = 64
    rw [bytesToHexList_length, h]
  · intro c hc
    exact isLowerHexChar_isHex (bytesToHexList_lowerHex bs c hc)

theorem normalizeSalt_valid (env : CryptoEnv)
    (h32 : ∀ s, (env.sha256Utf8 s).length = 32) (y : String) :
    isValidHexSalt (normalizeSalt env y) = true := by
  unfold normalizeSalt
  split
  · exact toLowerAscii_valid (by assumption)
  · exact bytesToHex_valid (h32 y)

theorem normalizeSalt_of_valid (env : CryptoEnv) {s : String}
    (h : isValidHexSalt s = true) : normalizeSalt env s = toLowerAscii s := by
  unfold normalizeSalt
  rw [if_pos h]

theorem normalizeSalt_fix (env : CryptoEnv) (y : String)
    (h : isValidHexSalt (normalizeSalt env y) = true) :
    normalizeSalt env (normalizeSalt env y) = normalizeSalt env y := by
  rw [normalizeSalt_of_valid env h, toLowerAscii_normalizeSalt]

theorem normalizeSalt_lowerHex64 (env : CryptoEnv)
    (h32 : ∀ s, (env.sha256Utf8 s).length = 32) (y : String) :
    isLowerHex64 (normalizeSalt env y) = true := by
  unfold normalizeSalt
  split
  · next h =>
    rw [isValidHexSalt_iff] at h
    obtain ⟨hl, hall⟩ := h
    simp only [isLowerHex64, Bool.and_eq_true, beq_iff_eq, List.all_eq_true]
    constructor
    · rw [toLowerAscii_data, List.length_map]
      exact hl
    · intro c hc
      rw [toLowerAscii_data, List.mem_map] at hc
      obtain ⟨c0, hc0, rfl⟩ := hc
      exact lowerChar_hex (hall c0 hc0)
  · simp only [isLowerHex64, Bool.and_eq_true, beq_iff_eq, List.all_eq_true]
    constructor
    · show (bytesToHexList _).length = 64
      rw [bytesToHexList_length, h32 y]
    · intro c hc
      exact bytesToHexList_lowerHex _ c hc

/-! ### Derivation pipeline lemmas -/

theorem derive_eval (env : CryptoEnv) (p : KeyDerivationParams)
    (h1 : ¬ p.commitments.length < p.threshold) (h2 : isValidHexSalt p.salt = true) :
    deriveWalletKey env p =
      .ok ⟨toHex64 (clampScalar (rawScalar (env.hkdfSha256
              (env.sha256Utf8
                ("key-weaver:v1" ++ "|" ++ canonicalizeCommitments p.commitments ++ "|" ++ p.salt))
              (hexToBytes p.salt) "key-weaver-hkdf" 32))),
           addressFromPrivateKey env (toHex64 (clampScalar (rawScalar (env.hkdfSha256
              (env.sha256Utf8
                ("key-weaver:v1" ++ "|" ++ canonicalizeCommitments p.commitments ++ "|" ++ p.salt))
              (hexToBytes p.salt) "key-weaver-hkdf" 32))))⟩ := by
  unfold deriveWalletKey
  rw [if_neg h1, if_neg (by simp [h2])]

theorem derive_ok_checks {env : CryptoEnv} {p : KeyDerivationParams} {dk : DerivedKeyResult}
    (h : deriveWalletKey env p = .ok dk) :
    ¬ p.commitments.length < p.threshold ∧ isValidHexSalt p.salt = true := by
  by_cases h1 : p.commitments.length < p.threshold
  · unfold deriveWalletKey at h
    rw [if_pos h1] at h
    exact absurd h (by simp)
  · by_cases h2 : isValidHexSalt p.salt = false
    · unfold deriveWalletKey at h
      rw [if_neg h1, if_pos h2] at h
      exact absurd h (by simp)
    · exact ⟨h1, by simpa using h2⟩

theorem derive_ok_address {env : CryptoEnv} {p : KeyDerivationParams} {dk : DerivedKeyResult}
    (h : deriveWalletKey env p = .ok dk) :
    dk.address = addressFromPrivateKey env dk.privateKey := by
  obtain ⟨h1, h2⟩ := derive_ok_checks h
  rw [derive_eval env p h1 h2] at h
  injection h with h
  rw [← h]

/-! ### Except plumbing -/

theorem wrapErr_ok_iff {α : Type} {x : Except Err α} {r : α} :
    wrapErr x = .ok r ↔ x = .ok r := by
  cases x <;> simp [wrapErr]

theorem wrapErr_error {α : Type} {x : Except Err α} {e : Err} (h : x = .error e) :
    wrapErr x = .error (.keyDerivation (errMessage e)) := by
  rw [h]
  rfl

theorem wrapErr_ne_notInitialized {α : Type} (x : Except Err α) :
    wrapErr x ≠ .error .notInitialized := by
  cases x with
  | error e => simp [wrapErr]
  | ok a => simp [wrapErr]

/-! ### Claim extraction lemmas -/

theorem extractClaims_mem {env : CryptoEnv} :
    ∀ {l : List SupportedIdentity} {cs : List IdentityClaim},
      extractClaims env l = .ok cs →
      ∀ x ∈ l, ∃ c ∈ cs, extractIdentityClaim env x = .ok c := by
  intro l
  induction l with
  | nil => intro cs _ x hx; simp at hx
  | cons i rest ih =>
    intro cs h x hx
    unfold extractClaims at h
    cases he : extractIdentityClaim env i with
    | error e => rw [he] at h; exact absurd h (by simp)
    | ok c =>
      rw [he] at h
      cases hr : extractClaims env rest with
      | error e => rw [hr] at h; exact absurd h (by simp)
      | ok cs' =>
        rw [hr] at h
        injection h with h
        subst h
        rcases List.mem_cons.mp hx with rfl | hxr
        · exact ⟨c, by simp, he⟩
        · obtain ⟨c', hc', he'⟩ := ih hr x hxr
          exact ⟨c', by simp [hc'], he'⟩

theorem extractClaims_forall_ok {env : CryptoEnv} (P : IdentityClaim → Prop) :
    ∀ l : List SupportedIdentity,
      (∀ x ∈ l, ∃ c, extractIdentityClaim env x = .ok c ∧ P c) →
      ∃ cs, extractClaims env l = .ok cs ∧ cs.length = l.length ∧ ∀ c ∈ cs, P c
  | [], _ => ⟨[], rfl, rfl, by simp⟩
  | i :: rest, h => by
    obtain ⟨c, hce, hPc⟩ := h i (by simp)
    obtain ⟨cs', hr, hlen, hall⟩ :=
      extractClaims_forall_ok P rest (fun x hx => h x (by simp [hx]))
    refine ⟨c :: cs', ?_, by simp [hlen], ?_⟩
    · unfold extractClaims
      rw [hce, hr]
    · intro c' hc'
      rcases List.mem_cons.mp hc' with rfl | hc'
      · exact hPc
      · exact hall c' hc'

/-! ### Matching loop lemmas -/

theorem validate_self (env : CryptoEnv) (c : IdentityClaim) (salt : String) :
    validateCommitment env c salt (computeCommitment env c salt) = true := by
  simp [validateCommitment]

theorem matchCount_all (env : CryptoEnv) (stored : List Commitment) (salt : String) :
    ∀ cs : List IdentityClaim,
      (∀ c ∈ cs,
        (stored.find? (fun s => validateCommitment env c salt s.commitment)).isSome = true) →
      matchCount env stored salt cs = cs.length
  | [], _ => rfl
  | c :: rest, h => by
    unfold matchCount
    rw [if_pos (h c (by simp)), matchCount_all env stored salt rest
      (fun c' hc' => h c' (by simp [hc']))]
    simp [Nat.add_comm]

/-! ### API body evaluation lemmas -/

theorem registerBody_eval (env : CryptoEnv) (p : RegisterWalletParams)
    (claims : List IdentityClaim) (dk : DerivedKeyResult)
    (hE : extractClaims env p.identities = .ok claims)
    (hD : deriveWalletKey env
        ⟨typedOf (generateCommitments env claims (normalizeSalt env (chooseSalt env p.salt))),
         p.threshold, normalizeSalt env (chooseSalt env p.salt)⟩ = .ok dk) :
    registerBody env p =
      .ok ⟨generateCommitments env claims (normalizeSalt env (chooseSalt env p.salt)),
           normalizeSalt env (chooseSalt env p.salt), dk.address,
           if p.exposePrivateKey then some dk.privateKey else none⟩ := by
  unfold registerBody
  rw [hE]
  dsimp only
  rw [hD]

theorem registerBody_error (env : CryptoEnv) (p : RegisterWalletParams) :
    ∀ {e : Err}, extractClaims env p.identities = .error e →
    registerBody env p = .error e := by
  intro e hE
  unfold registerBody
  rw [hE]

theorem recoverBody_low (env : CryptoEnv) (p : RecoverWalletParams) (salt : String)
    (claims : List IdentityClaim)
    (hE : extractClaims env p.identities = .ok claims)
    (hmc : matchCount env p.commitments salt claims < p.threshold) :
    recoverBody env p salt =
      .ok ⟨none, matchCount env p.commitments salt claims, false, none⟩ := by
  unfold recoverBody
  rw [hE]
  dsimp only
  rw [if_pos hmc]

theorem recoverBody_eval (env : CryptoEnv) (p : RecoverWalletParams) (salt : String)
    (claims : List IdentityClaim) (dk : DerivedKeyResult)
    (hE : extractClaims env p.identities = .ok claims)
    (hmc : ¬ matchCount env p.commitments salt claims < p.threshold)
    (hD : deriveWalletKey env ⟨typedOf p.commitments, p.threshold, salt⟩ = .ok dk) :
    recoverBody env p salt =
      .ok ⟨some (createWalletFromPrivateKey env dk.privateKey),
           matchCount env p.commitments salt claims, true,
           if p.exposePrivateKey then some dk.privateKey else none⟩ := by
  unfold recoverBody
  rw [hE]
  dsimp only
  rw [if_neg hmc, hD]
  dsimp only
  rw [if_neg ?_]
  show ¬ toLowerAscii (createWalletFromPrivateKey env dk.privateKey).address ≠
      toLowerAscii dk.address
  rw [show (createWalletFromPrivateKey env dk.privateKey).address = dk.address from
    (derive_ok_address hD).symm]
  exact fun hne => hne rfl

theorem recoverBody_ok_inv (env : CryptoEnv) (p : RecoverWalletParams) (salt : String)
    (r : RecoverWalletResult) (h : recoverBody env p salt = .ok r) :
    (r.success = true ↔ p.threshold ≤ r.matchedCount) ∧
    (r.success = false → r.wallet = none ∧ r.privateKey = none) := by
  unfold recoverBody at h
  cases hE : extractClaims env p.identities with
  | error e => rw [hE] at h; exact absurd h (by simp)
  | ok claims =>
    rw [hE] at h
    dsimp only at h
    by_cases hmc : matchCount env p.commitments salt claims < p.threshold
    · rw [if_pos hmc] at h
      injection h with h
      rw [← h]
      refine ⟨by simp; omega, fun _ => ⟨rfl, rfl⟩⟩
    · rw [if_neg hmc] at h
      cases hD : deriveWalletKey env ⟨typedOf p.commitments, p.threshold, salt⟩ with
      | error e => rw [hD] at h; exact absurd h (by simp)
      | ok dk =>
        rw [hD] at h
        dsimp only at h
        by_cases haddr : toLowerAscii (createWalletFromPrivateKey env dk.privateKey).address ≠
            toLowerAscii dk.address
        · rw [if_pos haddr] at h
          exact absurd h (by simp)
        · rw [if_neg haddr] at h
          injection h with h
          rw [← h]
          refine ⟨by simp; omega, fun hfalse => by simp at hfalse⟩

/-! ### Claim theorems -/

/-- C4: `canonicalizeCommitments` is permutation-invariant — for every
commitment multiset and every permutation of it, the canonical strings are
equal.  (The normalization/sorting/serialization algorithm the claim
describes is the definition of `canonicalizeCommitments` itself; the sort
relation `tcLe` is a strict total order on the normalized records by the
`IsTotal`/`IsTrans`/`IsAntisymm` instances above.) -/
theorem canonicalizeCommitments_perm_invariant (C C' : List TypedCommitment)
    (h : C.Perm C') : canonicalizeCommitments C = canonicalizeCommitments C' :=
  canon_perm h

theorem canonicalizeCommitments_perm_invariant_witness :
    canonicalizeCommitments [⟨"github", "def456"⟩, ⟨"Google", "abc123"⟩] =
      canonicalizeCommitments [⟨"Google", "abc123"⟩, ⟨"github", "def456"⟩] :=
  canonicalizeCommitments_perm_invariant _ _ (by decide)

/-- C3: `deriveWalletKey` is a pure function of the commitment multiset and
the salt only: for any permutation of the commitment list and any two
thresholds that do not exceed the commitment count, the results (private key
and address alike) are identical — the threshold never enters the pipeline. -/
theorem deriveWalletKey_threshold_order_independent (env : CryptoEnv)
    (C C' : List TypedCommitment) (K1 K2 : Nat) (salt : String)
    (hp : C.Perm C') (h1 : K1 ≤ C.length) (h2 : K2 ≤ C.length) :
    deriveWalletKey env ⟨C, K1, salt⟩ = deriveWalletKey env ⟨C', K2, salt⟩ := by
  have hlen : C'.length = C.length := hp.length_eq.symm
  by_cases hs : isValidHexSalt salt = true
  · have e1 := derive_eval env ⟨C, K1, salt⟩ (show ¬ C.length < K1 from by omega) hs
    have e2 := derive_eval env ⟨C', K2, salt⟩ (show ¬ C'.length < K2 from by omega) hs
    rw [e1, e2, canon_perm hp]
  · have hs' : isValidHexSalt salt = false := by simpa using hs
    have e1 : deriveWalletKey env ⟨C, K1, salt⟩ = .error (.invalidSalt salt.length) := by
      unfold deriveWalletKey
      rw [if_neg (show ¬ C.length < K1 from by omega), if_pos hs']
    have e2 : deriveWalletKey env ⟨C', K2, salt⟩ = .error (.invalidSalt salt.length) := by
      unfold deriveWalletKey
      rw [if_neg (show ¬ C'.length < K2 from by omega), if_pos hs']
    rw [e1, e2]

theorem deriveWalletKey_threshold_order_independent_witness :
    deriveWalletKey envD ⟨[⟨"google", "abc123"⟩, ⟨"github", "def456"⟩], 1, saltA⟩ =
      deriveWalletKey envD ⟨[⟨"github", "def456"⟩, ⟨"google", "abc123"⟩], 2, saltA⟩ :=
  deriveWalletKey_threshold_order_independent envD _ _ 1 2 saltA
    (by decide) (by decide) (by decide)

/-- C6: scalar clamping is total with no failure path — for every 32-byte
key-material input, the clamped scalar lies in `[1, CURVE_ORDER - 1]` and its
rendering is exactly 64 lowercase hex characters. -/
theorem clampScalar_total_valid_scalar (km : List Nat) (_hlen : km.length = 32) :
    1 ≤ clampScalar (rawScalar km) ∧ clampScalar (rawScalar km) < CURVE_ORDER ∧
    (toHex64 (clampScalar (rawScalar km))).length = 64 ∧
    (toHex64 (clampScalar (rawScalar km))).data.all isLowerHexChar = true := by
  obtain ⟨hlo, hhi⟩ := clampScalar_range (rawScalar km)
  have hpow : clampScalar (rawScalar km) < 16 ^ 64 :=
    lt_trans hhi curveOrder_lt_pow
  refine ⟨hlo, hhi, toHex64_length _ hpow, ?_⟩
  rw [List.all_eq_true]
  exact toHex64_lowerHex _

theorem clampScalar_total_valid_scalar_witness :
    1 ≤ clampScalar (rawScalar (List.replicate 32 0)) ∧
    clampScalar (rawScalar (List.replicate 32 0)) < CURVE_ORDER ∧
    (toHex64 (clampScalar (rawScalar (List.replicate 32 0)))).length = 64 ∧
    (toHex64 (clampScalar (rawScalar (List.replicate 32 0)))).data.all isLowerHexChar = true :=
  clampScalar_total_valid_scalar (List.replicate 32 0) (by decide)

/-- C8: for every commitment list and valid salt, `deriveWalletKey` succeeds
and its seed is the hash of exactly
`"key-weaver:v1" ++ "|" ++ canonical ++ "|" ++ saltHex`, expanded by HKDF
with info string `"key-weaver-hkdf"`; the `:` and `|` record separators are
those of `canonicalizeCommitments`. -/
theorem deriveWalletKey_seed_domain_separation (env : CryptoEnv)
    (p : KeyDerivationParams) (h1 : p.threshold ≤ p.commitments.length)
    (h2 : isValidHexSalt p.salt = true) :
    deriveWalletKey env p =
      .ok ⟨toHex64 (clampScalar (rawScalar (env.hkdfSha256
              (env.sha256Utf8
                ("key-weaver:v1" ++ "|" ++ canonicalizeCommitments p.commitments ++ "|" ++ p.salt))
              (hexToBytes p.salt) "key-weaver-hkdf" 32))),
           addressFromPrivateKey env (toHex64 (clampScalar (rawScalar (env.hkdfSha256
              (env.sha256Utf8
                ("key-weaver:v1" ++ "|" ++ canonicalizeCommitments p.commitments ++ "|" ++ p.salt))
              (hexToBytes p.salt) "key-weaver-hkdf" 32))))⟩ :=
  derive_eval env p (by omega) h2

theorem deriveWalletKey_seed_domain_separation_witness :
    deriveWalletKey envD ⟨[⟨"google", "abc123"⟩], 1, saltA⟩ =
      .ok ⟨toHex64 (clampScalar (rawScalar (envD.hkdfSha256
              (envD.sha256Utf8
                ("key-weaver:v1" ++ "|" ++ canonicalizeCommitments [⟨"google", "abc123"⟩] ++ "|" ++ saltA))
              (hexToBytes saltA) "key-weaver-hkdf" 32))),
           addressFromPrivateKey envD (toHex64 (clampScalar (rawScalar (envD.hkdfSha256
              (envD.sha256Utf8
                ("key-weaver:v1" ++ "|" ++ canonicalizeCommitments [⟨"google", "abc123"⟩] ++ "|" ++ saltA))
              (hexToBytes saltA) "key-weaver-hkdf" 32))))⟩ :=
  deriveWalletKey_seed_domain_separation envD ⟨[⟨"google", "abc123"⟩], 1, saltA⟩
    (by decide) (by decide)

/-- C9: `normalizeSalt` is total, idempotent, always produces a string
matching `^[0-9a-f]{64}$` (hence `isValidSalt` accepts it), and returns an
already-valid hex salt as its lowercase form unchanged. -/
theorem normalizeSalt_idempotent_and_valid (env : CryptoEnv)
    (h32 : ∀ s, (env.sha256Utf8 s).length = 32) (y : String) :
    normalizeSalt env (normalizeSalt env y) = normalizeSalt env y ∧
    isLowerHex64 (normalizeSalt env y) = true ∧
    isValidSalt (normalizeSalt env y) = true ∧
    (isValidHexSalt y = true → normalizeSalt env y = toLowerAscii y) := by
  have hv := normalizeSalt_valid env h32 y
  exact ⟨normalizeSalt_fix env y hv, normalizeSalt_lowerHex64 env h32 y, hv,
    fun h => normalizeSalt_of_valid env h⟩

theorem normalizeSalt_idempotent_and_valid_witness :
    normalizeSalt envD (normalizeSalt envD "abc") = normalizeSalt envD "abc" ∧
    isLowerHex64 (normalizeSalt envD "abc") = true ∧
    isValidSalt (normalizeSalt envD "abc") = true ∧
    (isValidHexSalt "abc" = true → normalizeSalt envD "abc" = toLowerAscii "abc") :=
  normalizeSalt_idempotent_and_valid envD (fun _ => rfl) "abc"

/-- C5: for every recovery call that returns, `success` is true exactly when
`matchedCount` reaches the threshold; and whenever the match count is below
the threshold (with the state initialized and every presented proof
well-formed), `recoverWallet` returns the normal value
`{matchedCount, success := false}` with no exception and no key material
(no wallet, no private key). -/
theorem recoverWallet_success_iff_threshold (env : CryptoEnv) (st : KeyWeaverState)
    (p : RecoverWalletParams) :
    (∀ r, recoverWallet env st p = .ok r →
      (r.success = true ↔ p.threshold ≤ r.matchedCount) ∧
      (r.success = false → r.wallet = none ∧ r.privateKey = none)) ∧
    (∀ claims, ¬(st.inited = false ∨ st.config = none) →
      extractClaims env p.identities = .ok claims →
      matchCount env p.commitments (normalizeSalt env p.salt) claims < p.threshold →
      recoverWallet env st p =
        .ok ⟨none, matchCount env p.commitments (normalizeSalt env p.salt) claims,
             false, none⟩) := by
  constructor
  · intro r hr
    unfold recoverWallet at hr
    by_cases hst : st.inited = false ∨ st.config = none
    · rw [if_pos hst] at hr
      exact absurd hr (by simp)
    · rw [if_neg hst] at hr
      exact recoverBody_ok_inv env p _ r (wrapErr_ok_iff.mp hr)
  · intro claims hst hE hmc
    unfold recoverWallet
    rw [if_neg hst, wrapErr_ok_iff]
    exact recoverBody_low env p _ claims hE hmc

theorem recoverWallet_success_iff_threshold_witness :
    recoverWallet envD stReady ⟨[], storedC2, saltA, 1, false⟩ =
      .ok ⟨none, 0, false, none⟩ :=
  (recoverWallet_success_iff_threshold envD stReady ⟨[], storedC2, saltA, 1, false⟩).2
    [] (by decide) rfl (by decide)

/-- C10: before a successful `initKeyWeaver` call (the `inited` flag unset or
the config absent) both API entry points fail with
`KeyWeaverNotInitializedError` for every input — the check precedes all claim
extraction, matching and derivation work — and after `initKeyWeaver` neither
can ever raise that error again. -/
theorem notInitialized_before_init_never_after (env : CryptoEnv) (st : KeyWeaverState)
    (pR : RegisterWalletParams) (pV : RecoverWalletParams) (cfg : KeyWeaverConfig) :
    (st.inited = false ∨ st.config = none →
      registerWallet env st pR = .error .notInitialized ∧
      recoverWallet env st pV = .error .notInitialized) ∧
    registerWallet env (initKeyWeaver cfg st) pR ≠ .error .notInitialized ∧
    recoverWallet env (initKeyWeaver cfg st) pV ≠ .error .notInitialized := by
  refine ⟨fun h => ⟨?_, ?_⟩, ?_, ?_⟩
  · unfold registerWallet
    rw [if_pos h]
  · unfold recoverWallet
    rw [if_pos h]
  · unfold registerWallet
    rw [if_neg (by simp [initKeyWeaver])]
    split
    · simp
    · exact wrapErr_ne_notInitialized _
  · unfold recoverWallet
    rw [if_neg (by simp [initKeyWeaver])]
    exact wrapErr_ne_notInitialized _

theorem notInitialized_before_init_never_after_witness :
    (registerWallet envD stFresh regParamsW = .error .notInitialized ∧
     recoverWallet envD stFresh recParamsC2 = .error .notInitialized) ∧
    registerWallet envD (initKeyWeaver ⟨none⟩ stFresh) regParamsW ≠
      .error .notInitialized ∧
    recoverWallet envD (initKeyWeaver ⟨none⟩ stFresh) recParamsC2 ≠
      .error .notInitialized := by
  obtain ⟨h1, h2, h3⟩ :=
    notInitialized_before_init_never_after envD stFresh regParamsW recParamsC2 ⟨none⟩
  exact ⟨h1 (Or.inl rfl), h2, h3⟩

/-- C2: evaluating `recoverWallet` at the failing input — the same valid
proof presented twice against a single genuinely-registered stored
commitment — yields `matchedCount = 2` from one stored slot, because the
matching loop never consumes matched entries; the claimed bound (matched
count at most the number of distinct matching stored commitments, here 1) is
violated. -/
theorem recoverWallet_double_counts_single_commitment :
    recoverWallet envD stReady recParamsC2 = .ok ⟨none, 2, false, none⟩ ∧
    recParamsC2.commitments.length = 1 ∧
    recParamsC2.identities.length = 2 := by
  decide

/-- C7 counterexample: registering with a structurally malformed OAuth ID
token (one part instead of three) fails with a `KeyDerivationError` whose
message merely embeds the extraction failure — not with the
`InvalidIdentityTokenError` the claim says is surfaced directly. -/
theorem registerWallet_wraps_invalid_token_error :
    registerWallet envD stReady regParamsC7 =
      .error (.keyDerivation "Invalid google token: wrong part count") := by
  decide

/-- C7 (amended): a structurally malformed identity proof makes claim
extraction fail with `InvalidIdentityTokenError{provider, reason}`, but the
`catch` blocks of `registerWallet` and `recoverWallet` convert it: the caller
receives a `KeyDerivationError` whose message embeds the provider name and
reason, not the `InvalidIdentityTokenError` itself. -/
theorem malformed_proof_error_wrapped (env : CryptoEnv) (st : KeyWeaverState)
    (pR : RegisterWalletParams) (pV : RecoverWalletParams)
    (provider reason : String)
    (hst : ¬(st.inited = false ∨ st.config = none))
    (hR : extractClaims env pR.identities = .error (.invalidIdentityToken provider reason))
    (hV : extractClaims env pV.identities = .error (.invalidIdentityToken provider reason))
    (hth : ¬ pR.identities.length < pR.threshold) :
    registerWallet env st pR =
      .error (.keyDerivation ("Invalid " ++ provider ++ " token: " ++ reason)) ∧
    recoverWallet env st pV =
      .error (.keyDerivation ("Invalid " ++ provider ++ " token: " ++ reason)) := by
  constructor
  · unfold registerWallet
    rw [if_neg hst, if_neg hth, wrapErr_error (registerBody_error env pR hR)]
    rfl
  · unfold recoverWallet
    have hb : recoverBody env pV (normalizeSalt env pV.salt) =
        .error (.invalidIdentityToken provider reason) := by
      unfold recoverBody
      rw [hV]
    rw [if_neg hst, wrapErr_error hb]
    rfl

theorem malformed_proof_error_wrapped_witness :
    registerWallet envD stReady regParamsC7 =
      .error (.keyDerivation ("Invalid " ++ "google" ++ " token: " ++ "wrong part count")) ∧
    recoverWallet envD stReady ⟨[.google "abc"], storedC2, saltA, 1, false⟩ =
      .error (.keyDerivation ("Invalid " ++ "google" ++ " token: " ++ "wrong part count")) :=
  malformed_proof_error_wrapped envD stReady regParamsC7
    ⟨[.google "abc"], storedC2, saltA, 1, false⟩ "google" "wrong part count"
    (by decide) (by decide) (by decide) (by decide)

/-- C1: for every successful registration and every recovery that presents a
subset of the original identity proofs of at least threshold size,
`recoverWallet` succeeds, derives from the entire stored commitment set, and
the recovered address and private key are identical to the registered ones. -/
theorem recoverWallet_rederives_registered_key (env : CryptoEnv) (st : KeyWeaverState)
    (p : RegisterWalletParams) (reg : RegisterWalletResult)
    (sub : List SupportedIdentity)
    (hreg : registerWallet env st p = .ok reg)
    (hexp : p.exposePrivateKey = true)
    (hsub : ∀ x ∈ sub, x ∈ p.identities)
    (hK : p.threshold ≤ sub.length) :
    ∃ rec, recoverWallet env st ⟨sub, reg.commitments, reg.salt, p.threshold, true⟩ =
        .ok rec ∧
      rec.success = true ∧ rec.matchedCount = sub.length ∧
      rec.privateKey = reg.privateKey ∧
      ∃ w, rec.wallet = some w ∧ w.address = reg.address := by
  unfold registerWallet at hreg
  by_cases hst : st.inited = false ∨ st.config = none
  · rw [if_pos hst] at hreg
    exact absurd hreg (by simp)
  rw [if_neg hst] at hreg
  by_cases hth : p.identities.length < p.threshold
  · rw [if_pos hth] at hreg
    exact absurd hreg (by simp)
  rw [if_neg hth] at hreg
  have hbody := wrapErr_ok_iff.mp hreg
  cases hE : extractClaims env p.identities with
  | error e =>
    rw [registerBody_error env p hE] at hbody
    exact absurd hbody (by simp)
  | ok claims =>
    cases hD : deriveWalletKey env
        ⟨typedOf (generateCommitments env claims (normalizeSalt env (chooseSalt env p.salt))),
         p.threshold, normalizeSalt env (chooseSalt env p.salt)⟩ with
    | error e =>
      have hberr : registerBody env p = .error e := by
        unfold registerBody
        rw [hE]
        dsimp only
        rw [hD]
      rw [hberr] at hbody
      exact absurd hbody (by simp)
    | ok dk =>
      rw [registerBody_eval env p claims dk hE hD] at hbody
      injection hbody with hbody
      subst hbody
      obtain ⟨hTlen, hvalid⟩ := derive_ok_checks hD
      have hx : ∀ x ∈ sub, ∃ c, extractIdentityClaim env x = .ok c ∧ c ∈ claims := by
        intro x hxm
        obtain ⟨c, hcmem, hce⟩ := extractClaims_mem hE x (hsub x hxm)
        exact ⟨c, hce, hcmem⟩
      obtain ⟨cs', hE', hlen, hall⟩ := extractClaims_forall_ok (fun c => c ∈ claims) sub hx
      have hmatch : ∀ c ∈ cs',
          ((generateCommitments env claims (normalizeSalt env (chooseSalt env p.salt))).find?
            (fun s => validateCommitment env c (normalizeSalt env (chooseSalt env p.salt))
              s.commitment)).isSome = true := by
        intro c hc
        apply List.find?_isSome.mpr
        refine ⟨⟨c, computeCommitment env c (normalizeSalt env (chooseSalt env p.salt))⟩, ?_, ?_⟩
        · show _ ∈ claims.map _
          exact List.mem_map_of_mem _ (hall c hc)
        · exact validate_self env c _
      have hSfix : normalizeSalt env (normalizeSalt env (chooseSalt env p.salt)) =
          normalizeSalt env (chooseSalt env p.salt) := normalizeSalt_fix env _ hvalid
      have hmc : matchCount env
          (generateCommitments env claims (normalizeSalt env (chooseSalt env p.salt)))
          (normalizeSalt env (chooseSalt env p.salt)) cs' = sub.length := by
        rw [matchCount_all env _ _ cs' hmatch, hlen]
      refine ⟨⟨some (createWalletFromPrivateKey env dk.privateKey), sub.length, true,
        some dk.privateKey⟩, ?_, rfl, rfl, ?_, ?_⟩
      · unfold recoverWallet
        rw [if_neg hst, wrapErr_ok_iff]
        dsimp only
        rw [hSfix]
        rw [recoverBody_eval env _ _ cs' dk hE' (by dsimp only; rw [hmc]; omega) hD]
        rw [hmc]
        rfl
      · show some dk.privateKey = if p.exposePrivateKey then some dk.privateKey else none
        rw [hexp]
        rfl
      · exact ⟨createWalletFromPrivateKey env dk.privateKey, rfl,
          (derive_ok_address hD).symm⟩

set_option maxRecDepth 8192 in
theorem recoverWallet_rederives_registered_key_witness :
    ∃ rec, recoverWallet envD stReady
        ⟨[.github "tok"], regResultW.commitments, regResultW.salt,
         regParamsW.threshold, true⟩ = .ok rec ∧
      rec.success = true ∧
      rec.matchedCount = [SupportedIdentity.github "tok"].length ∧
      rec.privateKey = regResultW.privateKey ∧
      ∃ w, rec.wallet = some w ∧ w.address = regResultW.address :=
  recoverWallet_rederives_registered_key envD stReady regParamsW regResultW
    [.github "tok"] (by decide) rfl (by decide) (by decide)
